import Mathlib

/-!
Verification of the dose-comparison dashboard (`src/app.py`).

The development shallowly embeds the data model and the operations of the
application: records with the four required fields, the two-step filter
(`df_f`, lines 88-89), the per-procedure summary (`resumen`, lines 96-107),
the slider bounds for the fluoroscopy-time range (lines 84-86), the chart
group construction (`boxplot_por_proc` lines 126-135, `barras_media_std`
lines 137-147), the column validation (`faltantes`, lines 66-70), the CSV
export/parse pair (`make_download_button` lines 170-178, `pd.read_csv`
line 57), and the synthetic generator (`ejemplo_df`, lines 24-45).

Numeric data is modelled by exact rationals; the sample standard deviation
(a square root) lives in the reals.  Rounding (`pandas.round`, python
`round`) is modelled by round-to-nearest on rationals; the tie-breaking
convention is immaterial to every statement proved here.
-/

/-- One observation: the four required columns of the table.  Extra columns
are outside the model (the core ignores them). -/
structure Record where
  procedimiento : String
  dap : ℚ
  kar : ℚ
  tiempo : ℚ
  deriving DecidableEq

/-- The three numeric columns: `DAP_Gycm2`, `Ka_r_mGy`, `tiempo_fluoro_min`. -/
inductive Col where
  | dap
  | kar
  | tiempo
  deriving DecidableEq

/-- Column access on a record. -/
def Record.get (r : Record) : Col → ℚ
  | .dap => r.dap
  | .kar => r.kar
  | .tiempo => r.tiempo

/-! ## Filter Engine (app.py lines 88-89) -/

/-- `df[df["procedimiento"].isin(sel_procs)]` (line 88). -/
def isinFilter (df : List Record) (sel : List String) : List Record :=
  df.filter (fun r => sel.contains r.procedimiento)

/-- `df_f[(df_f["tiempo_fluoro_min"] >= rango_t[0]) & (df_f["tiempo_fluoro_min"] <= rango_t[1])]`
(line 89). -/
def rangeFilter (df : List Record) (lo hi : ℚ) : List Record :=
  df.filter (fun r => decide (lo ≤ r.tiempo) && decide (r.tiempo ≤ hi))

/-- The whole filter step: procedure inclusion, then time range (lines 88-89). -/
def filterEngine (df : List Record) (sel : List String) (lo hi : ℚ) : List Record :=
  rangeFilter (isinFilter df sel) lo hi

/-! ## Statistics (pandas aggregations used by `resumen` and the charts) -/

/-- Ascending sort of the sample, used by the order statistics. -/
def sortQ (xs : List ℚ) : List ℚ :=
  xs.insertionSort (· ≤ ·)

/-- `mean`: sum over size (0 on the empty list, which no caller reaches). -/
def meanQ (xs : List ℚ) : ℚ :=
  xs.sum / (xs.length : ℚ)

/-- `quantile(q)` with linear interpolation between order statistics, the
pandas default: position `q*(n-1)`, interpolate between the two neighbouring
sorted values. -/
def quantileLin (q : ℚ) (xs : List ℚ) : ℚ :=
  let s := sortQ xs
  let n := s.length
  if n = 0 then 0
  else
    let pos : ℚ := q * ((n : ℚ) - 1)
    let h : ℕ := (Int.floor pos).toNat
    let lo := s.getD h 0
    let hi := s.getD (h + 1) lo
    lo + (pos - (h : ℚ)) * (hi - lo)

/-- `median()` is the 0.5 linear-interpolation quantile. -/
def medianQ (xs : List ℚ) : ℚ :=
  quantileLin (1 / 2) xs

/-- `quantile(0.75)`, the DRL candidate. -/
def q75Q (xs : List ℚ) : ℚ :=
  quantileLin (3 / 4) xs

/-- `min()` of a group (0 on the empty list, which no caller reaches). -/
def minQ : List ℚ → ℚ
  | [] => 0
  | x :: rest => rest.foldl min x

/-- `max()` of a group (0 on the empty list, which no caller reaches). -/
def maxQ : List ℚ → ℚ
  | [] => 0
  | x :: rest => rest.foldl max x

/-- Sample variance with the `ddof=1` divisor `n-1`; `none` (pandas `NaN`)
when the group has fewer than two values. -/
def sampleVar (xs : List ℚ) : Option ℚ :=
  if xs.length < 2 then none
  else some ((xs.map (fun x => (x - meanQ xs) ^ 2)).sum / ((xs.length : ℚ) - 1))

/-- `std(ddof=1)`: square root of the sample variance, missing when `n < 2`. -/
noncomputable def sampleStd (xs : List ℚ) : Option ℝ :=
  (sampleVar xs).map (fun v => Real.sqrt (v : ℝ))

/-- `round(x, d)` on rationals: scale by `10^d`, round to the nearest
integer, scale back. -/
def roundTo (d : ℕ) (x : ℚ) : ℚ :=
  ((round (x * 10 ^ d) : ℤ) : ℚ) / 10 ^ d

/-- `round(x, d)` on reals (for the standard deviation). -/
noncomputable def roundToR (d : ℕ) (x : ℝ) : ℝ :=
  ((round (x * 10 ^ d) : ℤ) : ℝ) / 10 ^ d

/-! ## Grouping (pandas `groupby("procedimiento")`, keys sorted ascending) -/

/-- The group keys: distinct procedure labels present, ascending.  This is
both the `groupby` index order and `procs` of line 79. -/
def labelsOf (df : List Record) : List String :=
  ((df.map (·.procedimiento)).dedup).insertionSort (· ≤ ·)

/-- The values of column `f` in the group of label `p`. -/
def groupVals (df : List Record) (f : Col) (p : String) : List ℚ :=
  (df.filter (fun r => r.procedimiento == p)).map (fun r => r.get f)

/-! ## Summary Aggregator (`resumen`, app.py lines 96-107) -/

/-- One line of the `resumen` table: `n`, `media`, `mediana`,
`p75 (DRL candidato)`, `std`, `min`, `max` for one procedure. -/
structure SummaryRow where
  procedimiento : String
  n : ℕ
  media : ℚ
  mediana : ℚ
  p75 : ℚ
  std : Option ℝ
  minv : ℚ
  maxv : ℚ

/-- `resumen(df_in, var)` (lines 96-107): group by procedure (keys
ascending), aggregate, round every statistic to 2 decimals. -/
noncomputable def resumen (df : List Record) (f : Col) : List SummaryRow :=
  (labelsOf df).map (fun p =>
    let xs := groupVals df f p
    { procedimiento := p
      n := xs.length
      media := roundTo 2 (meanQ xs)
      mediana := roundTo 2 (medianQ xs)
      p75 := roundTo 2 (q75Q xs)
      std := (sampleStd xs).map (fun s => roundToR 2 s)
      minv := roundTo 2 (minQ xs)
      maxv := roundTo 2 (maxQ xs) })

/-! ## Slider bounds for the time range (app.py lines 84-86) -/

/-- Observed minimum of `tiempo_fluoro_min` in the source dataset (line 84). -/
def tminOf (df : List Record) : ℚ :=
  minQ (df.map (·.tiempo))

/-- Observed maximum of `tiempo_fluoro_min` in the source dataset (line 84). -/
def tmaxOf (df : List Record) : ℚ :=
  maxQ (df.map (·.tiempo))

/-- The slider's `min_value=0.0` (line 85). -/
def sliderMinVal : ℚ := 0

/-- The slider's `max_value=max(1.0, round(tmax, 1))` (line 85). -/
def sliderMaxVal (df : List Record) : ℚ :=
  max 1 (roundTo 1 (tmaxOf df))

/-- The slider's default `value=(0.0, round(tmax, 1))` (line 86). -/
def sliderDefault (df : List Record) : ℚ × ℚ :=
  (0, roundTo 1 (tmaxOf df))

/-- The pairs the range slider can produce: both ends inside
`[min_value, max_value]` and in order (the widget's own guarantee). -/
def selectable (df : List Record) (lo hi : ℚ) : Prop :=
  sliderMinVal ≤ lo ∧ lo ≤ hi ∧ hi ≤ sliderMaxVal df

instance (df : List Record) (lo hi : ℚ) : Decidable (selectable df lo hi) := by
  unfold selectable
  infer_instance

/-! ## Chart Renderer (app.py lines 126-147) -/

/-- Ordering of the box-plot groups: by group median of the plotted field
(`.median().sort_values()`, line 127). -/
def boxKey (df : List Record) (f : Col) (a b : String) : Prop :=
  medianQ (groupVals df f a) ≤ medianQ (groupVals df f b)

instance (df : List Record) (f : Col) : DecidableRel (boxKey df f) :=
  fun a b => inferInstanceAs (Decidable (_ ≤ _))

instance (df : List Record) (f : Col) : IsTotal String (boxKey df f) :=
  ⟨fun a b => le_total _ _⟩

instance (df : List Record) (f : Col) : IsTrans String (boxKey df f) :=
  ⟨fun _ _ _ h1 h2 => le_trans h1 h2⟩

/-- `boxplot_por_proc` (lines 126-135): one `(label, values)` group per
distinct procedure, ordered ascending by group median. -/
def boxplotGroups (df : List Record) (f : Col) : List (String × List ℚ) :=
  ((labelsOf df).insertionSort (boxKey df f)).map (fun p => (p, groupVals df f p))

/-- Ordering of the bar chart: by group mean (`.sort_values("mean")`,
line 138). -/
def barKey (df : List Record) (f : Col) (a b : String) : Prop :=
  meanQ (groupVals df f a) ≤ meanQ (groupVals df f b)

instance (df : List Record) (f : Col) : DecidableRel (barKey df f) :=
  fun a b => inferInstanceAs (Decidable (_ ≤ _))

instance (df : List Record) (f : Col) : IsTotal String (barKey df f) :=
  ⟨fun a b => le_total _ _⟩

instance (df : List Record) (f : Col) : IsTrans String (barKey df f) :=
  ⟨fun _ _ _ h1 h2 => le_trans h1 h2⟩

/-- `barras_media_std` (lines 137-147): one `(label, mean, std)` group per
distinct procedure, ordered ascending by group mean; the bar height is the
mean and the error bar the sample standard deviation (missing when the
group is a singleton). -/
noncomputable def barGroups (df : List Record) (f : Col) :
    List (String × ℚ × Option ℝ) :=
  ((labelsOf df).insertionSort (barKey df f)).map
    (fun p => (p, meanQ (groupVals df f p), sampleStd (groupVals df f p)))

/-! ## Column validation (app.py lines 66-70) -/

/-- `cols_req` (line 66). -/
def colsReq : List String :=
  ["procedimiento", "DAP_Gycm2", "Ka_r_mGy", "tiempo_fluoro_min"]

/-- `faltantes = cols_req - set(df.columns)` (line 67), as the list of
required names absent from the header. -/
def faltantes (cols : List String) : List String :=
  colsReq.filter (fun c => !(cols.contains c))

/-- Lines 68-70: `st.error(...)`+`st.stop()` on missing columns, modelled as
an `Except` whose error carries the missing names. -/
def checkCols (cols : List String) : Except (List String) Unit :=
  if faltantes cols = [] then .ok () else .error (faltantes cols)

/-- The missing names surfaced to the user (`[]` when the load succeeded). -/
def errNames : Except (List String) Unit → List String
  | .error e => e
  | .ok _ => []

/-- The interaction after a load: validate the columns, and only on success
run the rest of the pipeline (filter then summary).  `st.stop()` makes the
failure branch produce nothing further. -/
noncomputable def processUpload (cols : List String) (df : List Record)
    (sel : List String) (lo hi : ℚ) (f : Col) :
    Except (List String) (List SummaryRow) :=
  (checkCols cols).map (fun _ => resumen (filterEngine df sel lo hi) f)

/-! ## Export Encoder and the CSV parser (app.py lines 170-178 and 57)

`df.to_csv(index=False)` writes the header row then one line per record,
cells separated by commas, each line terminated by a newline; numbers are
printed in plain decimal.  `pd.read_csv` splits lines, skips blank lines,
locates each required column in the header, and parses the cells.  The
embedding works on `List Char`. -/

/-- The decimal digit character of `n < 10`. -/
def digitChar (n : ℕ) : Char :=
  Char.ofNat (48 + n)

/-- Plain decimal numeral of a natural number, most significant digit
first. -/
def natToDigits (n : ℕ) : List Char :=
  if _h : n < 10 then [digitChar n]
  else natToDigits (n / 10) ++ [digitChar (n % 10)]
termination_by n
decreasing_by exact Nat.div_lt_self (by omega) (by omega)

/-- Two-digit field, zero padded (the fractional part of a cent value). -/
def twoDigits (m : ℕ) : List Char :=
  if m < 10 then '0' :: natToDigits m else natToDigits m

/-- Decimal rendering of a non-negative rational on the cent grid
(`q = n/100`): integer part, point, two fractional digits. -/
def renderDec (q : ℚ) : List Char :=
  let n := (q * 100).num.toNat
  natToDigits (n / 100) ++ '.' :: twoDigits (n % 100)

/-- Digit-string accumulator for the numeric parser. -/
def parseDigitsAux : ℕ → List Char → Option ℕ
  | acc, [] => some acc
  | acc, c :: cs =>
    if c.isDigit then parseDigitsAux (acc * 10 + (c.toNat - 48)) cs else none

/-- Parse a non-empty string of digits. -/
def parseDigits : List Char → Option ℕ
  | [] => none
  | cs => parseDigitsAux 0 cs

/-- Split on a separator character; `n` separators yield `n+1` parts. -/
def splitChar (c : Char) : List Char → List (List Char)
  | [] => [[]]
  | x :: xs =>
    match splitChar c xs with
    | [] => [[]]
    | y :: ys => if x = c then [] :: y :: ys else (x :: y) :: ys

/-- Parse a decimal cell: either an integer or `intpart.fracpart`. -/
def parseDec (cs : List Char) : Option ℚ :=
  match splitChar '.' cs with
  | [a] => (parseDigits a).map (fun n => (n : ℚ))
  | [a, b] =>
    match parseDigits a, parseDigits b with
    | some x, some y => some ((x : ℚ) + (y : ℚ) / 10 ^ b.length)
    | _, _ => none
  | _ => none

/-- The cells of one record, in the column order of the table. -/
def recordCells (r : Record) : List (List Char) :=
  [r.procedimiento.data, renderDec r.dap, renderDec r.kar, renderDec r.tiempo]

/-- The header cells written by `to_csv`. -/
def headerCells : List (List Char) :=
  colsReq.map (·.data)

/-- `df.to_csv(index=False)` (line 172): header line then one line per
record, comma-separated cells, `\n` after every line. -/
def encodeCSV (df : List Record) : List Char :=
  ((headerCells :: df.map recordCells).map
    (fun cells => List.intercalate [','] cells ++ ['\n'])).flatten

/-- Position of a required column in the header, `none` when absent. -/
def colIdx (header : List (List Char)) (name : String) : Option ℕ :=
  if name.data ∈ header then some (header.indexOf name.data) else none

/-- Parse one data line given the column positions. -/
def parseRow (iP iD iK iT : ℕ) (line : List Char) : Option Record :=
  let cells := splitChar ',' line
  match cells.get? iP, (cells.get? iD).bind parseDec,
      (cells.get? iK).bind parseDec, (cells.get? iT).bind parseDec with
  | some pcell, some d, some k, some t => some ⟨⟨pcell⟩, d, k, t⟩
  | _, _, _, _ => none

/-- `pd.read_csv` (line 57) on the four-column shape: split lines, skip
blank lines, locate the required columns in the header, parse each row. -/
def parseCSV (cs : List Char) : Option (List Record) :=
  match (splitChar '\n' cs).filter (fun l => !l.isEmpty) with
  | [] => none
  | h :: rows =>
    let header := splitChar ',' h
    match colIdx header "procedimiento", colIdx header "DAP_Gycm2",
        colIdx header "Ka_r_mGy", colIdx header "tiempo_fluoro_min" with
    | some iP, some iD, some iK, some iT => rows.mapM (parseRow iP iD iK iT)
    | _, _, _, _ => none

/-- A string that needs no CSV quoting: no separator, no newline. -/
def PlainCell (s : String) : Prop :=
  ',' ∉ s.data ∧ '\n' ∉ s.data

instance (s : String) : Decidable (PlainCell s) := by
  unfold PlainCell
  infer_instance

/-- A rational on the cent grid, non-negative: exactly the values the
export writes after the app's 1- or 2-decimal rounding. -/
def CentValue (q : ℚ) : Prop :=
  0 ≤ q ∧ (q * 100).den = 1

instance (q : ℚ) : Decidable (CentValue q) := by
  unfold CentValue
  infer_instance

/-- A record the CSV round trip can represent exactly. -/
def GoodRecord (r : Record) : Prop :=
  PlainCell r.procedimiento ∧ CentValue r.dap ∧ CentValue r.kar ∧ CentValue r.tiempo

instance (r : Record) : Decidable (GoodRecord r) := by
  unfold GoodRecord
  infer_instance

/-! ## Synthetic generator (`ejemplo_df`, app.py lines 24-45)

`ejemplo_df` begins with `np.random.seed(42)`: it operates on the ambient
global numpy RNG.  The model threads that global state explicitly: seeding
replaces the state, and drawing `n` variates advances it `n` times.  The
numeric law of each variate (Mersenne-Twister gamma/choice sampling on
floats) is outside the model; the draws are a fixed deterministic stream of
the state, which preserves exactly what the claims below are about: which
global state the function reads, writes, and returns. -/

/-- The ambient global numpy RNG state. -/
structure Rng where
  state : ℕ
  deriving DecidableEq

/-- `np.random.seed(k)` (line 25): replaces the global state. -/
def npRandomSeed (k : ℕ) (_g : Rng) : Rng :=
  ⟨k⟩

/-- Draw one raw variate and advance the state. -/
def rngDraw (g : Rng) : ℕ × Rng :=
  (g.state, ⟨g.state + 1⟩)

/-- Draw `n` raw variates. -/
def rngDrawMany : ℕ → Rng → List ℕ × Rng
  | 0, g => ([], g)
  | n + 1, g =>
    let (v, g1) := rngDraw g
    let (vs, g2) := rngDrawMany n g1
    (v :: vs, g2)

/-- The five procedure labels (lines 26-32). -/
def procedimientos : List String :=
  ["Angiografía cerebral diagnóstica", "Coiling de aneurisma",
   "MAV (embolización)", "Trombectomía mecánica", "Angioplastia periférica"]

/-- Size of the synthetic sample (`n = 220`, line 33). -/
def nEj : ℕ := 220

/-- Deterministic stand-in for one gamma variate of the given shape and
scale (the exact float sampling law is outside the model). -/
def gammaVal (shape scale : ℚ) (raw : ℕ) : ℚ :=
  shape * scale * (((raw % 10 : ℕ) : ℚ) / 5)

/-- `ejemplo_df()` (lines 24-45) against an explicit global RNG state:
seed 42, draw the procedure column, the three numeric columns (rounded as
in the source: DAP to 2 decimals, Ka and time to 1), pick 5 outlier rows
and scale them by 3, 2.2, 1.8.  Returns the dataset and the global state
left behind. -/
def ejemplo_df (g : Rng) : List Record × Rng :=
  let g0 := npRandomSeed 42 g
  let (procRaws, g1) := rngDrawMany nEj g0
  let (dapRaws, g2) := rngDrawMany nEj g1
  let (kaRaws, g3) := rngDrawMany nEj g2
  let (tRaws, g4) := rngDrawMany nEj g3
  let (outRaws, g5) := rngDrawMany 5 g4
  let procs := procRaws.map (fun v => procedimientos.getD (v % procedimientos.length) "")
  let daps := dapRaws.map (fun v => roundTo 2 (gammaVal (7 / 2) 6 v))
  let kas := kaRaws.map (fun v => roundTo 1 (gammaVal 5 35 v))
  let ts := tRaws.map (fun v => roundTo 1 (gammaVal (5 / 2) 6 v))
  let base := (List.range nEj).map (fun i =>
    ({ procedimiento := procs.getD i ""
       dap := daps.getD i 0
       kar := kas.getD i 0
       tiempo := ts.getD i 0 } : Record))
  let outIdx := outRaws.map (fun v => v % nEj)
  let df := base.mapIdx (fun i r =>
    if outIdx.contains i then
      { r with dap := 3 * r.dap, kar := (11 / 5) * r.kar, tiempo := (9 / 5) * r.tiempo }
    else r)
  (df, g5)

/-! ## Concrete data for counterexamples and witnesses -/

/-- Two records of one procedure whose kerma mean has two significant
decimals. -/
def dfKerma : List Record :=
  [⟨"A", 0, 1 / 10, 0⟩, ⟨"A", 0, 7 / 50, 0⟩]

/-- One record whose fluoroscopy time is strictly positive. -/
def dfSlider : List Record :=
  [⟨"A", 1, 1, 2⟩]

/-- A one-record dataset on the cent grid with a plain label. -/
def dfCsv : List Record :=
  [⟨"Coiling", 63 / 4, 1234 / 10, 7 / 2⟩]

/-! ## Helper lemmas -/

/-- The two filter steps of lines 88-89 fuse into one predicate. -/
theorem filterEngine_filter (df : List Record) (sel : List String) (lo hi : ℚ) :
    filterEngine df sel lo hi =
      df.filter (fun r => (decide (lo ≤ r.tiempo) && decide (r.tiempo ≤ hi)) &&
        sel.contains r.procedimiento) := by
  simp [filterEngine, rangeFilter, isinFilter, List.filter_filter]

theorem labelsOf_sorted (df : List Record) : List.Sorted (· ≤ ·) (labelsOf df) :=
  List.sorted_insertionSort _ _

theorem labelsOf_nodup (df : List Record) : (labelsOf df).Nodup :=
  ((List.perm_insertionSort _ _).nodup_iff).mpr (List.nodup_dedup _)

theorem mem_labelsOf {df : List Record} {p : String} :
    p ∈ labelsOf df ↔ p ∈ df.map (·.procedimiento) := by
  unfold labelsOf
  rw [List.mem_insertionSort, List.mem_dedup]

/-- The size of a procedure's group is the label's multiplicity. -/
theorem length_group (df : List Record) (p : String) :
    (df.filter (fun r => r.procedimiento == p)).length =
      (df.map (·.procedimiento)).count p := by
  induction df with
  | nil => rfl
  | cons r rest ih =>
    by_cases h : r.procedimiento = p
    · simp [List.filter_cons, List.count_cons, h, ih]
    · simp [List.filter_cons, List.count_cons, h, ih]

/-- Group sizes over the distinct labels sum to the dataset size. -/
theorem sum_group_counts (df : List Record) :
    ((labelsOf df).map (fun p => (df.map (·.procedimiento)).count p)).sum = df.length := by
  unfold labelsOf
  have hperm := (List.perm_insertionSort (· ≤ ·) ((df.map (·.procedimiento)).dedup)).map
    (fun p => (df.map (·.procedimiento)).count p)
  rw [hperm.sum_eq, List.sum_map_count_dedup_eq_length, List.length_map]

theorem resumen_labels (df : List Record) (f : Col) :
    (resumen df f).map (·.procedimiento) = labelsOf df := by
  unfold resumen
  rw [List.map_map]
  exact List.map_id _

theorem start_le_foldl_max (x : ℚ) (l : List ℚ) : x ≤ l.foldl max x := by
  induction l generalizing x with
  | nil => exact le_refl x
  | cons y ys ih => exact le_trans (le_max_left x y) (ih (max x y))

theorem maxQ_nonneg {xs : List ℚ} (h : ∀ x ∈ xs, 0 ≤ x) : 0 ≤ maxQ xs := by
  cases xs with
  | nil => exact le_refl 0
  | cons x rest => exact le_trans (h x (by simp)) (start_le_foldl_max x rest)

theorem roundTo_nonneg {d : ℕ} {x : ℚ} (hx : 0 ≤ x) : 0 ≤ roundTo d x := by
  unfold roundTo
  apply div_nonneg _ (by positivity)
  have h1 : (0 : ℚ) ≤ x * 10 ^ d := by positivity
  have h2 : 0 ≤ ⌊x * 10 ^ d + 1 / 2⌋ := Int.floor_nonneg.mpr (by linarith)
  rw [round_eq]
  exact_mod_cast h2

theorem roundToR_nonneg {d : ℕ} {x : ℝ} (hx : 0 ≤ x) : 0 ≤ roundToR d x := by
  unfold roundToR
  apply div_nonneg _ (by positivity)
  have h1 : (0 : ℝ) ≤ x * 10 ^ d := by positivity
  have h2 : 0 ≤ ⌊x * 10 ^ d + 1 / 2⌋ := Int.floor_nonneg.mpr (by linarith)
  rw [round_eq]
  exact_mod_cast h2

/-! ## Claim theorems -/

/-- **C1**: the Filter Engine keeps a record iff its procedure is in the
included set and its fluoroscopy time lies in `[low, high]` inclusive, and
the result is a subsequence of the input dataset (every output record
occurs in the input, in the same relative order). -/
theorem c1_filter_keeps_iff_and_subsequence (df : List Record) (sel : List String)
    (lo hi : ℚ) :
    (filterEngine df sel lo hi).Sublist df ∧
      ∀ r : Record, r ∈ filterEngine df sel lo hi ↔
        (r ∈ df ∧ r.procedimiento ∈ sel ∧ lo ≤ r.tiempo ∧ r.tiempo ≤ hi) := by
  rw [filterEngine_filter]
  refine ⟨List.filter_sublist _, fun r => ?_⟩
  simp [List.mem_filter]
  tauto

/-- **C10**: the Filter Engine is idempotent — filtering an already-filtered
dataset with the same criteria returns it unchanged. -/
theorem c10_filter_idempotent (df : List Record) (sel : List String) (lo hi : ℚ) :
    filterEngine (filterEngine df sel lo hi) sel lo hi = filterEngine df sel lo hi := by
  rw [filterEngine_filter, filterEngine_filter]
  exact List.filter_eq_self.mpr (fun a ha => (List.mem_filter.mp ha).2)

/-- **C2**: `resumen` produces exactly one row per distinct procedure present
(its label column is nodup, sorted ascending, and has the same members as the
dataset's procedure column); each row's count is the number of records of that
procedure; the counts sum to the dataset's size; and the empty dataset gives
the empty row sequence. -/
theorem c2_resumen_rows (df : List Record) (f : Col) :
    List.Sorted (· ≤ ·) ((resumen df f).map (·.procedimiento)) ∧
    ((resumen df f).map (·.procedimiento)).Nodup ∧
    (∀ p : String,
      p ∈ (resumen df f).map (·.procedimiento) ↔ p ∈ df.map (·.procedimiento)) ∧
    List.Forall
      (fun row => row.n = (df.filter (fun r => r.procedimiento == row.procedimiento)).length)
      (resumen df f) ∧
    ((resumen df f).map (·.n)).sum = df.length ∧
    resumen ([] : List Record) f = [] := by
  rw [resumen_labels]
  refine ⟨labelsOf_sorted df, labelsOf_nodup df, fun p => mem_labelsOf, ?_, ?_, rfl⟩
  · rw [List.forall_iff_forall_mem]
    intro row hrow
    obtain ⟨p, hp, rfl⟩ := List.mem_map.mp hrow
    show (groupVals df f p).length = _
    simp [groupVals]
  · have h1 : (resumen df f).map (·.n) =
        (labelsOf df).map (fun p => (df.map (·.procedimiento)).count p) := by
      unfold resumen
      rw [List.map_map]
      refine List.map_congr_left (fun p _ => ?_)
      show (groupVals df f p).length = _
      rw [groupVals, List.length_map, length_group]
    rw [h1, sum_group_counts]

theorem faltantes_nil_iff (cols : List String) :
    faltantes cols = [] ↔ ∀ c ∈ colsReq, c ∈ cols := by
  simp [faltantes, List.filter_eq_nil_iff]

theorem mem_faltantes (cols : List String) (c : String) :
    c ∈ faltantes cols ↔ (c ∈ colsReq ∧ c ∉ cols) := by
  simp [faltantes]

/-- **C5**: the standard deviation of a Summary Row is the `(n−1)`-divisor
sample standard deviation of the group's values (rounded for display); it is
present iff the group's count is at least 2 (missing when `count < 2`), and
whenever present it is nonnegative. -/
theorem c5_std_presence_nonneg (df : List Record) (f : Col) :
    List.Forall (fun row =>
      row.std = (sampleStd (groupVals df f row.procedimiento)).map (fun s => roundToR 2 s) ∧
      (row.std.isSome ↔ 2 ≤ row.n) ∧
      0 ≤ row.std.getD 0) (resumen df f) := by
  rw [List.forall_iff_forall_mem]
  intro row hrow
  obtain ⟨p, hp, rfl⟩ := List.mem_map.mp hrow
  refine ⟨rfl, ?_, ?_⟩
  · show ((sampleStd (groupVals df f p)).map _).isSome ↔ 2 ≤ (groupVals df f p).length
    by_cases h : (groupVals df f p).length < 2
    · simp [sampleStd, sampleVar, h]
    · simp [sampleStd, sampleVar, h]
      omega
  · show 0 ≤ ((sampleStd (groupVals df f p)).map (fun s => roundToR 2 s)).getD 0
    cases hv : sampleVar (groupVals df f p) with
    | none => simp [sampleStd, hv]
    | some v =>
      simp [sampleStd, hv]
      exact roundToR_nonneg (Real.sqrt_nonneg _)

/-- **C6 counterexample**: the claim's 1-decimal rounding for kerma-like
fields is false — on `dfKerma` (kerma values 0.1 and 0.14) `resumen` reports
the kerma mean rounded to 2 decimals, 0.12, which differs from the 1-decimal
rounding 0.1. -/
theorem c6_counterexample_kerma :
    (resumen dfKerma Col.kar).map (·.media) = [3 / 25] ∧
    roundTo 1 (meanQ (dfKerma.map (·.kar))) = 1 / 10 ∧
    (3 / 25 : ℚ) ≠ 1 / 10 := by
  have hl : labelsOf dfKerma = ["A"] := by rfl
  refine ⟨?_, ?_, by norm_num⟩
  · unfold resumen
    rw [hl]
    simp only [List.map_cons, List.map_nil]
    norm_num [dfKerma, groupVals, Record.get, List.filter, meanQ, roundTo, round_eq]
  · norm_num [dfKerma, meanQ, roundTo, round_eq]

/-- **C6 amended**: every numeric statistic in a Summary Row is the
full-precision statistic of the group's values rounded to exactly 2 decimal
places, for every numeric column — including `Ka_r_mGy` (the 1-decimal kerma
rounding exists only in the synthetic generator's raw values, not in the
summary statistics). -/
theorem c6_statistics_rounded_two (df : List Record) (f : Col) :
    List.Forall (fun row =>
      row.media = roundTo 2 (meanQ (groupVals df f row.procedimiento)) ∧
      row.mediana = roundTo 2 (medianQ (groupVals df f row.procedimiento)) ∧
      row.p75 = roundTo 2 (q75Q (groupVals df f row.procedimiento)) ∧
      row.minv = roundTo 2 (minQ (groupVals df f row.procedimiento)) ∧
      row.maxv = roundTo 2 (maxQ (groupVals df f row.procedimiento)))
      (resumen df f) := by
  rw [List.forall_iff_forall_mem]
  intro row hrow
  obtain ⟨p, hp, rfl⟩ := List.mem_map.mp hrow
  exact ⟨rfl, rfl, rfl, rfl, rfl⟩

/-- **C3**: the load fails exactly when one of the four required column names
is missing from the header; the reported error names exactly the missing
required columns; further processing of the interaction happens iff the check
passed (the pipeline is a total function into `Except` — the failure is an
error value, not a crash). -/
theorem c3_schema_validation (cols : List String) (df : List Record)
    (sel : List String) (lo hi : ℚ) (f : Col) :
    (checkCols cols = .ok () ↔ ∀ c ∈ colsReq, c ∈ cols) ∧
    (∀ c : String, c ∈ errNames (checkCols cols) ↔ (c ∈ colsReq ∧ c ∉ cols)) ∧
    ((processUpload cols df sel lo hi f).isOk ↔ checkCols cols = .ok ()) := by
  refine ⟨?_, fun c => ?_, ?_⟩
  · rw [← faltantes_nil_iff]
    constructor
    · intro hok
      by_contra hne
      simp [checkCols, hne] at hok
    · intro hnil
      simp [checkCols, hnil]
  · rw [← mem_faltantes cols c]
    by_cases h : faltantes cols = []
    · simp [checkCols, h, errNames]
    · simp [checkCols, h, errNames]
  · by_cases h : faltantes cols = [] <;>
      simp [processUpload, checkCols, h, Except.map, Except.isOk, Except.toBool]

theorem sampleStd_isSome (xs : List ℚ) : (sampleStd xs).isSome ↔ 2 ≤ xs.length := by
  by_cases h : xs.length < 2
  · simp [sampleStd, sampleVar, h]
  · simp [sampleStd, sampleVar, h]
    omega

/-- **C7 counterexample**: the slider's bounds are not clamped to the observed
minimum of `tiempo_fluoro_min`: on `dfSlider` (observed minimum 2) the lower
bound 0 is strictly below the observed minimum and is itself a selectable
value, so the selectable range extends below the observed minimum. -/
theorem c7_counterexample_lower_bound :
    sliderMinVal < tminOf dfSlider ∧ selectable dfSlider sliderMinVal sliderMinVal := by
  constructor
  · norm_num [sliderMinVal, tminOf, dfSlider, minQ]
  · refine ⟨le_refl _, le_refl _, ?_⟩
    exact le_max_of_le_left (by norm_num [sliderMinVal])

/-- **C7 amended**: the Filter Criteria's range always satisfies
`low <= high` (the slider's default value is a valid pair), but the slider's
bounds are `0` below and `max(1, round(tmax, 1))` above — a fixed lower bound
of 0 rather than the observed minimum, and an upper bound that is the
observed maximum only up to 1-decimal rounding and the floor value 1. -/
theorem c7_slider_bounds (df : List Record) (h : ∀ r ∈ df, 0 ≤ r.tiempo) :
    selectable df (sliderDefault df).1 (sliderDefault df).2 ∧
    sliderMinVal = 0 ∧
    sliderMaxVal df = max 1 (roundTo 1 (tmaxOf df)) := by
  have h0 : 0 ≤ tmaxOf df := by
    apply maxQ_nonneg
    intro x hx
    obtain ⟨r, hr, rfl⟩ := List.mem_map.mp hx
    exact h r hr
  exact ⟨⟨le_refl _, roundTo_nonneg h0, le_max_right 1 _⟩, rfl, rfl⟩

/-- Witness for the amended C7 at `dfSlider`. -/
theorem c7_slider_bounds_witness :
    (∀ r ∈ dfSlider, 0 ≤ r.tiempo) ∧
    (selectable dfSlider (sliderDefault dfSlider).1 (sliderDefault dfSlider).2 ∧
     sliderMinVal = 0 ∧
     sliderMaxVal dfSlider = max 1 (roundTo 1 (tmaxOf dfSlider))) := by
  have h : ∀ r ∈ dfSlider, 0 ≤ r.tiempo := by
    intro r hr
    simp [dfSlider] at hr
    subst hr
    norm_num
  exact ⟨h, c7_slider_bounds dfSlider h⟩

/-- **C8**: the box-plot renderer orders the procedure groups ascending by
group median, the bar-chart renderer orders them ascending by group mean with
bar height the group mean and error bar the group sample standard deviation
(missing exactly when the group has fewer than two values), both renderers
yield one group per distinct procedure (so one-group data is fine), and both
are total and yield no groups at all on the empty dataset. -/
theorem c8_chart_orderings (df : List Record) (f : Col) :
    (boxplotGroups df f).Pairwise (fun a b => medianQ a.2 ≤ medianQ b.2) ∧
    (barGroups df f).Pairwise (fun a b => a.2.1 ≤ b.2.1) ∧
    List.Forall (fun g => g.2 = groupVals df f g.1) (boxplotGroups df f) ∧
    List.Forall (fun g =>
      g.2.1 = meanQ (groupVals df f g.1) ∧
      g.2.2 = sampleStd (groupVals df f g.1) ∧
      (g.2.2.isSome ↔ 2 ≤ (groupVals df f g.1).length)) (barGroups df f) ∧
    (boxplotGroups df f).length = (labelsOf df).length ∧
    (barGroups df f).length = (labelsOf df).length ∧
    boxplotGroups ([] : List Record) f = [] ∧
    barGroups ([] : List Record) f = [] := by
  refine ⟨?_, ?_, ?_, ?_, ?_, ?_, rfl, rfl⟩
  · exact List.Pairwise.map _ (fun a b hab => hab)
      (List.sorted_insertionSort (boxKey df f) (labelsOf df))
  · exact List.Pairwise.map _ (fun a b hab => hab)
      (List.sorted_insertionSort (barKey df f) (labelsOf df))
  · rw [List.forall_iff_forall_mem]
    intro g hg
    obtain ⟨p, hp, rfl⟩ := List.mem_map.mp hg
    rfl
  · rw [List.forall_iff_forall_mem]
    intro g hg
    obtain ⟨p, hp, rfl⟩ := List.mem_map.mp hg
    exact ⟨rfl, rfl, sampleStd_isSome _⟩
  · show (((labelsOf df).insertionSort (boxKey df f)).map _).length = _
    rw [List.length_map]
    exact (List.perm_insertionSort _ _).length_eq
  · show (((labelsOf df).insertionSort (barKey df f)).map _).length = _
    rw [List.length_map]
    exact (List.perm_insertionSort _ _).length_eq

set_option maxRecDepth 10000 in
/-- **C9 counterexample**: the synthetic generator does mutate state outside
its return value — called with global RNG state 0 it leaves the global RNG in
state 927 (the fixed seed 42 advanced by the 885 variates drawn), not in the
state 0 it found. -/
theorem c9_counterexample_rng_mutated :
    (ejemplo_df ⟨0⟩).2 ≠ (⟨0⟩ : Rng) := by
  have h : (ejemplo_df ⟨0⟩).2 = (⟨927⟩ : Rng) := rfl
  rw [h]
  intro hc
  have h2 := congrArg Rng.state hc
  simp at h2

set_option maxRecDepth 10000 in
/-- **C9 amended**: the generator's side effect is exactly the reseeding of
the ambient global RNG: it sets it to the fixed seed 42 and advances it once
per variate drawn, so both its dataset and the state it leaves behind are
independent of the prior global state (the call is deterministic), and the
final global state is the fixed state 927 — in general different from the
initial one. -/
theorem c9_rng_reseeded_deterministic (g g' : Rng) :
    ejemplo_df g = ejemplo_df g' ∧ (ejemplo_df g).2 = (⟨927⟩ : Rng) :=
  ⟨rfl, rfl⟩

theorem splitChar_ne_nil (c : Char) (l : List Char) : splitChar c l ≠ [] := by
  induction l with
  | nil => simp [splitChar]
  | cons x xs ih =>
    simp only [splitChar]
    rcases hs : splitChar c xs with _ | ⟨y, ys⟩
    · simp
    · by_cases hxc : x = c <;> simp [hxc]

theorem splitChar_of_not_mem {c : Char} {l : List Char} (h : c ∉ l) :
    splitChar c l = [l] := by
  induction l with
  | nil => rfl
  | cons x xs ih =>
    have hx : x ≠ c := fun he => h (he ▸ List.mem_cons_self x xs)
    have hxs : c ∉ xs := fun he => h (List.mem_cons_of_mem x he)
    simp only [splitChar, ih hxs]
    simp [hx]

theorem splitChar_append {c : Char} {l : List Char} (r : List Char) (h : c ∉ l) :
    splitChar c (l ++ c :: r) = l :: splitChar c r := by
  induction l with
  | nil =>
    obtain ⟨y, ys, hy⟩ := List.exists_cons_of_ne_nil (splitChar_ne_nil c r)
    simp only [List.nil_append, splitChar, hy]
    simp
  | cons x xs ih =>
    have hx : x ≠ c := fun he => h (he ▸ List.mem_cons_self x xs)
    have hxs : c ∉ xs := fun he => h (List.mem_cons_of_mem x he)
    show splitChar c (x :: (xs ++ c :: r)) = (x :: xs) :: splitChar c r
    simp only [splitChar]
    rw [ih hxs]
    simp [hx]

theorem splitChar_flatten {c : Char} {ls : List (List Char)} (h : ∀ l ∈ ls, c ∉ l) :
    splitChar c ((ls.map (fun l => l ++ [c])).flatten) = ls ++ [[]] := by
  induction ls with
  | nil => rfl
  | cons l ls ih =>
    simp only [List.map_cons, List.flatten_cons, List.append_assoc,
      List.singleton_append]
    rw [splitChar_append _ (h l (List.mem_cons_self l ls))]
    rw [ih (fun x hx => h x (List.mem_cons_of_mem l hx))]
    rfl

theorem filter_lines {ls : List (List Char)} (h : ∀ l ∈ ls, l ≠ []) :
    (ls ++ [[]]).filter (fun l => !l.isEmpty) = ls := by
  rw [List.filter_append]
  have h1 : ([[]] : List (List Char)).filter (fun l => !l.isEmpty) = [] := rfl
  have h2 : ls.filter (fun l => !l.isEmpty) = ls := by
    apply List.filter_eq_self.mpr
    intro a ha
    simpa using h a ha
  rw [h1, h2, List.append_nil]

theorem digitChar_isDigit {k : ℕ} (hk : k < 10) : (digitChar k).isDigit = true := by
  interval_cases k <;> decide

theorem digitChar_toNat {k : ℕ} (hk : k < 10) : (digitChar k).toNat = 48 + k := by
  interval_cases k <;> decide

theorem natToDigits_ne_nil (n : ℕ) : natToDigits n ≠ [] := by
  rw [natToDigits]
  split <;> simp

theorem natToDigits_isDigit (n : ℕ) : ∀ a ∈ natToDigits n, a.isDigit = true := by
  induction n using Nat.strong_induction_on with
  | _ n ih =>
    rw [natToDigits]
    split
    · next h =>
      intro a ha
      simp only [List.mem_singleton] at ha
      subst ha
      exact digitChar_isDigit h
    · next h =>
      intro a ha
      rw [List.mem_append] at ha
      rcases ha with ha | ha
      · exact ih (n / 10) (Nat.div_lt_self (by omega) (by omega)) a ha
      · simp only [List.mem_singleton] at ha
        subst ha
        exact digitChar_isDigit (Nat.mod_lt _ (by omega))

theorem natToDigits_length_of_lt {m : ℕ} (h : m < 10) : (natToDigits m).length = 1 := by
  rw [natToDigits]
  simp [h]

theorem parseDigitsAux_append (acc : ℕ) (ds es : List Char) :
    parseDigitsAux acc (ds ++ es) =
      (parseDigitsAux acc ds).bind (fun a => parseDigitsAux a es) := by
  induction ds generalizing acc with
  | nil => rfl
  | cons c cs ih =>
    simp only [List.cons_append, parseDigitsAux]
    split
    · exact ih _
    · rfl

theorem parseDigitsAux_natToDigits (n : ℕ) :
    ∀ acc, parseDigitsAux acc (natToDigits n) =
      some (acc * 10 ^ (natToDigits n).length + n) := by
  induction n using Nat.strong_induction_on with
  | _ n ih =>
    intro acc
    rw [natToDigits]
    split
    · next h =>
      simp only [parseDigitsAux, digitChar_isDigit h, if_true, digitChar_toNat h,
        List.length_singleton]
      norm_num
    · next h =>
      have hlt : n / 10 < n := Nat.div_lt_self (by omega) (by omega)
      have hm : n % 10 < 10 := Nat.mod_lt _ (by omega)
      rw [parseDigitsAux_append, ih (n / 10) hlt acc]
      simp only [Option.some_bind, parseDigitsAux, digitChar_isDigit hm, if_true,
        digitChar_toNat hm, List.length_append, List.length_singleton]
      rw [pow_succ, ← mul_assoc]
      generalize acc * 10 ^ (natToDigits (n / 10)).length = A
      congr 1
      omega

theorem parseDigits_natToDigits (n : ℕ) : parseDigits (natToDigits n) = some n := by
  obtain ⟨c, cs, hc⟩ := List.exists_cons_of_ne_nil (natToDigits_ne_nil n)
  have h1 : parseDigits (natToDigits n) = parseDigitsAux 0 (natToDigits n) := by
    rw [hc]
    rfl
  rw [h1, parseDigitsAux_natToDigits]
  simp

theorem isDigit_ne_special {a : Char} (h : a.isDigit = true) :
    a ≠ ',' ∧ a ≠ '\n' ∧ a ≠ '.' := by
  refine ⟨?_, ?_, ?_⟩ <;> rintro rfl <;> exact absurd h (by decide)

theorem twoDigits_isDigit (m : ℕ) : ∀ a ∈ twoDigits m, a.isDigit = true := by
  intro a ha
  unfold twoDigits at ha
  split at ha
  · rcases List.mem_cons.mp ha with rfl | ha
    · decide
    · exact natToDigits_isDigit m a ha
  · exact natToDigits_isDigit m a ha

theorem twoDigits_length {m : ℕ} (h : m < 100) : (twoDigits m).length = 2 := by
  unfold twoDigits
  split
  · next h10 => simp [natToDigits_length_of_lt h10]
  · next h10 =>
    rw [natToDigits, dif_neg h10]
    simp [natToDigits_length_of_lt (show m / 10 < 10 by omega)]

theorem parseDigits_twoDigits {m : ℕ} (h : m < 100) :
    parseDigits (twoDigits m) = some m := by
  unfold twoDigits
  split
  · next h10 =>
    have h1 : parseDigits ('0' :: natToDigits m) = parseDigitsAux 0 ('0' :: natToDigits m) := rfl
    rw [h1]
    have h2 : parseDigitsAux 0 ('0' :: natToDigits m) = parseDigitsAux 0 (natToDigits m) := by
      simp [parseDigitsAux]
    rw [h2, parseDigitsAux_natToDigits]
    simp
  · exact parseDigits_natToDigits m

theorem renderDec_digits_or_dot (q : ℚ) :
    ∀ a ∈ renderDec q, a.isDigit = true ∨ a = '.' := by
  intro a ha
  unfold renderDec at ha
  rw [List.mem_append, List.mem_cons] at ha
  rcases ha with ha | ha | ha
  · exact Or.inl (natToDigits_isDigit _ a ha)
  · exact Or.inr ha
  · exact Or.inl (twoDigits_isDigit _ a ha)

theorem renderDec_no_comma (q : ℚ) : ',' ∉ renderDec q := by
  intro hmem
  rcases renderDec_digits_or_dot q ',' hmem with h | h
  · exact (isDigit_ne_special h).1 rfl
  · exact absurd h (by decide)

theorem renderDec_no_newline (q : ℚ) : '\n' ∉ renderDec q := by
  intro hmem
  rcases renderDec_digits_or_dot q '\n' hmem with h | h
  · exact (isDigit_ne_special h).2.1 rfl
  · exact absurd h (by decide)

theorem dot_not_mem_natToDigits (k : ℕ) : '.' ∉ natToDigits k := by
  intro hm
  exact (isDigit_ne_special (natToDigits_isDigit _ _ hm)).2.2 rfl

theorem dot_not_mem_twoDigits (k : ℕ) : '.' ∉ twoDigits k := by
  intro hm
  exact (isDigit_ne_special (twoDigits_isDigit _ _ hm)).2.2 rfl

theorem parse_renderDec {q : ℚ} (h : CentValue q) : parseDec (renderDec q) = some q := by
  obtain ⟨hq0, hden⟩ := h
  have hnn : 0 ≤ (q * 100).num := Rat.num_nonneg.mpr (by positivity)
  have hq : (((q * 100).num.toNat : ℕ) : ℚ) = q * 100 := by
    have h1 : (((q * 100).num.toNat : ℕ) : ℚ) = (((q * 100).num.toNat : ℤ) : ℚ) := by
      push_cast
      ring
    rw [h1, Int.toNat_of_nonneg hnn]
    exact Rat.coe_int_num_of_den_eq_one hden
  unfold renderDec parseDec
  rw [splitChar_append _ (dot_not_mem_natToDigits ((q * 100).num.toNat / 100)),
    splitChar_of_not_mem (dot_not_mem_twoDigits ((q * 100).num.toNat % 100))]
  have hm : (q * 100).num.toNat % 100 < 100 := Nat.mod_lt _ (by omega)
  simp only [parseDigits_natToDigits, parseDigits_twoDigits hm, twoDigits_length hm]
  have key : (((q * 100).num.toNat / 100 : ℕ) : ℚ) +
      (((q * 100).num.toNat % 100 : ℕ) : ℚ) / 10 ^ 2 = q := by
    have hdm : (100 : ℚ) * (((q * 100).num.toNat / 100 : ℕ) : ℚ) +
        (((q * 100).num.toNat % 100 : ℕ) : ℚ) = (((q * 100).num.toNat : ℕ) : ℚ) := by
      exact_mod_cast Nat.div_add_mod (q * 100).num.toNat 100
    rw [hq] at hdm
    norm_num
    linarith
  rw [key]

theorem intercalate4_eq (a b c d : List Char) :
    List.intercalate [','] [a, b, c, d] = a ++ ',' :: (b ++ ',' :: (c ++ ',' :: d)) := by
  simp [List.intercalate, List.intersperse]

theorem splitChar_intercalate4 {a b c d : List Char}
    (ha : ',' ∉ a) (hb : ',' ∉ b) (hc : ',' ∉ c) (hd : ',' ∉ d) :
    splitChar ',' (List.intercalate [','] [a, b, c, d]) = [a, b, c, d] := by
  rw [intercalate4_eq, splitChar_append _ ha, splitChar_append _ hb,
    splitChar_append _ hc, splitChar_of_not_mem hd]

theorem parseRow_cells {r : Record} (h : GoodRecord r) :
    parseRow 0 1 2 3 (List.intercalate [','] (recordCells r)) = some r := by
  obtain ⟨⟨hp1, hp2⟩, hd, hk, ht⟩ := h
  unfold parseRow recordCells
  rw [splitChar_intercalate4 hp1 (renderDec_no_comma _) (renderDec_no_comma _)
    (renderDec_no_comma _)]
  simp only [List.get?, Option.some_bind, parse_renderDec hd, parse_renderDec hk,
    parse_renderDec ht]

theorem mapM_map_of_forall {α β : Type} (g : α → β) (f : β → Option α) (l : List α)
    (h : ∀ x ∈ l, f (g x) = some x) : (l.map g).mapM f = some l := by
  induction l with
  | nil => rfl
  | cons x xs ih =>
    rw [List.map_cons, List.mapM_cons, h x (List.mem_cons_self x xs),
      ih (fun y hy => h y (List.mem_cons_of_mem x hy))]
    rfl

theorem header_split :
    splitChar ',' (List.intercalate [','] headerCells) = headerCells := by
  decide

theorem header_no_newline : '\n' ∉ List.intercalate [','] headerCells := by
  decide

theorem header_ne_nil : List.intercalate [','] headerCells ≠ [] := by
  decide

theorem row_line_no_newline {r : Record} (h : GoodRecord r) :
    '\n' ∉ List.intercalate [','] (recordCells r) := by
  unfold recordCells
  rw [intercalate4_eq]
  intro hm
  simp only [List.mem_append, List.mem_cons] at hm
  rcases hm with hm | hm | hm | hm | hm | hm | hm
  · exact h.1.2 hm
  · exact absurd hm (by decide)
  · exact renderDec_no_newline _ hm
  · exact absurd hm (by decide)
  · exact renderDec_no_newline _ hm
  · exact absurd hm (by decide)
  · exact renderDec_no_newline _ hm

theorem row_line_ne_nil (r : Record) :
    List.intercalate [','] (recordCells r) ≠ [] := by
  unfold recordCells
  rw [intercalate4_eq]
  simp

theorem colIdx_header_p : colIdx headerCells "procedimiento" = some 0 := rfl

theorem colIdx_header_d : colIdx headerCells "DAP_Gycm2" = some 1 := rfl

theorem colIdx_header_k : colIdx headerCells "Ka_r_mGy" = some 2 := rfl

theorem colIdx_header_t : colIdx headerCells "tiempo_fluoro_min" = some 3 := rfl

/-- **C4**: for every dataset with no extra columns whose records are
CSV-representable (labels free of delimiter characters, numeric values on the
cent grid — exactly what the app's fixed 1- and 2-decimal rounding produces),
re-parsing the Export Encoder's bytes with the Data Source Resolver's parser
gives back the dataset with identical record content:
`parse(encode_csv(D)) = D`. -/
theorem c4_csv_roundtrip (df : List Record) (h : ∀ r ∈ df, GoodRecord r) :
    parseCSV (encodeCSV df) = some df := by
  unfold encodeCSV parseCSV
  have hmm : (headerCells :: df.map recordCells).map
        (fun cells => List.intercalate [','] cells ++ ['\n'])
      = ((headerCells :: df.map recordCells).map
          (fun cells => List.intercalate [','] cells)).map (fun l => l ++ ['\n']) := by
    rw [List.map_map]
    rfl
  rw [hmm]
  rw [splitChar_flatten (by
    intro l hl
    obtain ⟨cells, hcells, rfl⟩ := List.mem_map.mp hl
    rcases List.mem_cons.mp hcells with rfl | hcells
    · exact header_no_newline
    · obtain ⟨r, hr, rfl⟩ := List.mem_map.mp hcells
      exact row_line_no_newline (h r hr))]
  rw [filter_lines (by
    intro l hl
    obtain ⟨cells, hcells, rfl⟩ := List.mem_map.mp hl
    rcases List.mem_cons.mp hcells with rfl | hcells
    · exact header_ne_nil
    · obtain ⟨r, hr, rfl⟩ := List.mem_map.mp hcells
      exact row_line_ne_nil r)]
  rw [List.map_cons]
  simp only [header_split, colIdx_header_p, colIdx_header_d, colIdx_header_k,
    colIdx_header_t, List.map_map]
  exact mapM_map_of_forall _ _ df (fun r hr => parseRow_cells (h r hr))

/-- Witness for C4 at the one-record dataset `dfCsv`. -/
theorem c4_csv_roundtrip_witness :
    (∀ r ∈ dfCsv, GoodRecord r) ∧ parseCSV (encodeCSV dfCsv) = some dfCsv := by
  have h : ∀ r ∈ dfCsv, GoodRecord r := by
    intro r hr
    simp only [dfCsv, List.mem_singleton] at hr
    subst hr
    refine ⟨by decide, ?_, ?_, ?_⟩ <;> constructor <;> norm_num [CentValue, Rat.den_ofNat]
  exact ⟨h, c4_csv_roundtrip dfCsv h⟩
